import Mathlib

/-!
Verification development for the Glazed and Confused voice-ordering relay.

The definitions below are a shallow embedding of the JavaScript source:
  - src/config/menu.js            (fallbackMenu, findMenuItem, getPrice)
  - src/services/order-manager.js (OrderManager and its operations)
  - src/services/logger.js        (Logger.logOrder retry/idempotency loop)
  - src/routes/media-stream.js    (_handleCallEnd order-state effect)

JavaScript numbers are modelled as exact rationals (ℚ); `toFixed(2)` followed
by `parseFloat` is modelled as rounding to the nearest cent (`round2`).  All
rational arithmetic is phrased through `qAdd`/`qMul`/`roundQ`, kernel-reducible
renderings of `+`, `*` and `round` on ℚ (proved equal to them below), so that
concrete program runs can be checked by `decide`.  JavaScript `null`/`undefined`
string fields are `Option String` (`none` = absent); JS truthiness of a string
field means present and non-empty.  String operations are modelled over the
underlying character lists (ASCII case mapping, as in the source's data).
-/

/-- Kernel-reducible rendering of rational addition (proved equal to `+` below). -/
def qAdd (a b : ℚ) : ℚ := Rat.divInt (a.num * b.den + b.num * a.den) (a.den * b.den)

/-- Kernel-reducible rendering of rational multiplication (proved equal to `*` below). -/
def qMul (a b : ℚ) : ℚ := Rat.divInt (a.num * b.num) (a.den * b.den)

/-- Kernel-reducible rendering of `round : ℚ → ℤ` (round half up), via floor division. -/
def roundQ (q : ℚ) : ℤ := Int.fdiv (2 * q.num + q.den) (2 * q.den)

/-- The exact decimal amount of `n` hundredths, in kernel-computable normal form;
`cents 249` embeds the JS literal `2.49`. -/
def cents (n : ℤ) : ℚ := Rat.divInt n 100

/-- Natural number as a rational, in kernel-computable normal form. -/
def qNat (n : ℕ) : ℚ := Rat.divInt n 1

theorem qAdd_eq (a b : ℚ) : qAdd a b = a + b := by
  conv_rhs => rw [← Rat.num_divInt_den a, ← Rat.num_divInt_den b]
  rw [qAdd, Rat.divInt_add_divInt _ _ (by exact_mod_cast a.den_nz) (by exact_mod_cast b.den_nz)]

theorem qMul_eq (a b : ℚ) : qMul a b = a * b := by
  conv_rhs => rw [← Rat.num_divInt_den a, ← Rat.num_divInt_den b]
  rw [qMul, Rat.divInt_mul_divInt _ _ (by exact_mod_cast a.den_nz) (by exact_mod_cast b.den_nz)]

theorem qNat_eq (n : ℕ) : qNat n = (n : ℚ) := by
  rw [qNat, Rat.divInt_one]
  norm_cast

theorem cents_eq (n : ℤ) : cents n = (n : ℚ) / 100 := by
  rw [cents, Rat.divInt_eq_div]
  norm_num

theorem roundQ_eq (q : ℚ) : roundQ q = round q := by
  rw [round_eq, roundQ]
  have hden : ((q.den : ℚ)) ≠ 0 := by exact_mod_cast q.den_nz
  have harg : q + 1 / 2 = ((2 * q.num + (q.den : ℤ) : ℤ) : ℚ) / ((2 * q.den : ℕ) : ℚ) := by
    conv_lhs => rw [← Rat.num_div_den q]
    push_cast
    field_simp
    ring
  rw [harg, Rat.floor_intCast_div_natCast, Int.fdiv_eq_ediv _ (by positivity)]
  norm_num

/-- JS truthiness of a possibly-null string: truthy iff present and non-empty. -/
def strTruthy : Option String → Bool
  | none => false
  | some s => s ≠ ""

/-- JS `a || b` on possibly-null strings: `b` when `a` is null/undefined/empty. -/
def jsOrStr (a b : Option String) : Option String :=
  if strTruthy a then a else b

/-- ASCII lower-casing of one character, as JS `toLowerCase` acts on the
source's menu keys and tool arguments. -/
def lowerChar (c : Char) : Char :=
  if c.toNat ≥ 65 && c.toNat ≤ 90 then Char.ofNat (c.toNat + 32) else c

/-- JS `s.toLowerCase()` (ASCII model, over the character list). -/
def jsLower (s : String) : String :=
  String.mk (s.toList.map lowerChar)

/-- JS whitespace test used by `trim` and `split(/\s+/)`. -/
def isWs (c : Char) : Bool :=
  c == ' ' || c == '\t' || c == '\n' || c == '\r'

/-- JS `s.trim()`: drop leading and trailing whitespace (over the character list). -/
def jsTrim (s : String) : String :=
  String.mk (((s.toList.dropWhile isWs).reverse.dropWhile isWs).reverse)

/-- `leadMatch n l` means char list `n` matches at the head of `l`. -/
def leadMatch : List Char → List Char → Bool
  | [], _ => true
  | _ :: _, [] => false
  | a :: as, b :: bs => a == b && leadMatch as bs

/-- Contiguous-substring test on char lists, for JS `hay.includes(needle)`. -/
def listHasRun (needle : List Char) : List Char → Bool
  | [] => needle.isEmpty
  | b :: bs => leadMatch needle (b :: bs) || listHasRun needle bs

/-- JS `hay.includes(needle)` for strings. -/
def strIncludes (hay needle : String) : Bool :=
  listHasRun needle.toList hay.toList

/-- Split a char list at whitespace runs, keeping only the non-empty tokens. -/
def wsTokens : List Char → List (List Char)
  | [] => []
  | c :: cs =>
    if isWs c then wsTokens cs
    else
      match wsTokens cs with
      | [] => [[c]]
      | t :: ts => if isWs (cs.headD ' ') then [c] :: t :: ts else (c :: t) :: ts

/-- JS `s.split(/\s+/)` on an already-trimmed string: whitespace runs separate
tokens; splitting the empty string yields `[""]` as in JS. -/
def jsWords (s : String) : List String :=
  if s = "" then [""] else (wsTokens s.toList).map String.mk

/-- JS `parseFloat(x.toFixed(2))` on an exact rational: round to the nearest
cent (ties half up, agreeing with `toFixed` on the nonnegative amounts used here). -/
def round2 (q : ℚ) : ℚ :=
  cents (roundQ (qMul q (qNat 100)))

theorem round2_eq (q : ℚ) : round2 q = ((round (q * 100) : ℤ) : ℚ) / 100 := by
  rw [round2, cents_eq, roundQ_eq, qMul_eq, qNat_eq]
  norm_num

/-- One entry of the menu table: the declared size order and the size→price map
(an association list in the source object's key order). -/
structure MenuEntry where
  sizes : List String
  priceMap : List (String × ℚ)
  deriving DecidableEq, Repr

/-- JS property lookup `table[key]` on a string-keyed object, as an association list. -/
def lookupStr {α : Type} (l : List (String × α)) (k : String) : Option α :=
  (l.find? (fun kv => kv.1 == k)).map (fun kv => kv.2)

/-- Embeds the hardcoded `fallbackMenu` object of src/config/menu.js, in source
key order (significant for fuzzy-match tie-breaking and first-price fallback).
Prices are the source's decimal literals, as exact cents. -/
def fallbackMenu : List (String × MenuEntry) :=
  [ ("glazed donut", ⟨["single", "half-dozen", "dozen"],
      [("single", cents 249), ("half-dozen", cents 1299), ("dozen", cents 2299)]⟩),
    ("chocolate frosted donut", ⟨["single", "half-dozen", "dozen"],
      [("single", cents 299), ("half-dozen", cents 1599), ("dozen", cents 2799)]⟩),
    ("boston cream donut", ⟨["single", "half-dozen", "dozen"],
      [("single", cents 349), ("half-dozen", cents 1899), ("dozen", cents 3399)]⟩),
    ("maple bar", ⟨["single", "half-dozen", "dozen"],
      [("single", cents 329), ("half-dozen", cents 1799), ("dozen", cents 3199)]⟩),
    ("jelly filled donut", ⟨["single", "half-dozen", "dozen"],
      [("single", cents 329), ("half-dozen", cents 1799), ("dozen", cents 3199)]⟩),
    ("sprinkle donut", ⟨["single", "half-dozen", "dozen"],
      [("single", cents 279), ("half-dozen", cents 1499), ("dozen", cents 2599)]⟩),
    ("old fashioned donut", ⟨["single", "half-dozen", "dozen"],
      [("single", cents 279), ("half-dozen", cents 1499), ("dozen", cents 2599)]⟩),
    ("apple fritter", ⟨["single", "half-dozen", "dozen"],
      [("single", cents 399), ("half-dozen", cents 2199), ("dozen", cents 3999)]⟩),
    ("cruller", ⟨["single", "half-dozen", "dozen"],
      [("single", cents 299), ("half-dozen", cents 1599), ("dozen", cents 2799)]⟩),
    ("cinnamon sugar donut", ⟨["single", "half-dozen", "dozen"],
      [("single", cents 279), ("half-dozen", cents 1499), ("dozen", cents 2599)]⟩),
    ("blueberry cake donut", ⟨["single", "half-dozen", "dozen"],
      [("single", cents 329), ("half-dozen", cents 1799), ("dozen", cents 3199)]⟩),
    ("donut holes", ⟨["small", "large"], [("small", cents 499), ("large", cents 899)]⟩),
    ("muffin", ⟨["regular"], [("regular", cents 349)]⟩),
    ("croissant", ⟨["regular"], [("regular", cents 399)]⟩),
    ("bagel", ⟨["regular"], [("regular", cents 299)]⟩),
    ("bagel with cream cheese", ⟨["regular"], [("regular", cents 449)]⟩),
    ("coffee", ⟨["small", "medium", "large"],
      [("small", cents 249), ("medium", cents 329), ("large", cents 399)]⟩),
    ("iced coffee", ⟨["small", "medium", "large"],
      [("small", cents 329), ("medium", cents 399), ("large", cents 479)]⟩),
    ("espresso", ⟨["single", "double"], [("single", cents 299), ("double", cents 399)]⟩),
    ("latte", ⟨["small", "medium", "large"],
      [("small", cents 429), ("medium", cents 499), ("large", cents 579)]⟩),
    ("cappuccino", ⟨["small", "medium", "large"],
      [("small", cents 429), ("medium", cents 499), ("large", cents 579)]⟩),
    ("hot chocolate", ⟨["small", "medium", "large"],
      [("small", cents 349), ("medium", cents 429), ("large", cents 499)]⟩),
    ("chai latte", ⟨["small", "medium", "large"],
      [("small", cents 449), ("medium", cents 529), ("large", cents 599)]⟩),
    ("matcha latte", ⟨["small", "medium", "large"],
      [("small", cents 499), ("medium", cents 579), ("large", cents 649)]⟩),
    ("orange juice", ⟨["regular"], [("regular", cents 349)]⟩),
    ("milk", ⟨["regular"], [("regular", cents 249)]⟩),
    ("water", ⟨["regular"], [("regular", cents 199)]⟩) ]

/-- Embeds the fuzzy-match predicate of `findMenuItem`: every query word must be
a substring of, or contain, some word of the candidate key. -/
def fuzzyHit (ws : List String) (key : String) : Bool :=
  ws.all (fun w => (jsWords (jsLower key)).any (fun mw => strIncludes mw w || strIncludes w mw))

/-- Embeds `findMenuItem` of src/config/menu.js with no dynamic (Google Sheets)
menu loaded, so only the hardcoded fallback path runs: exact property lookup,
then case-insensitive key scan, then fuzzy token-subset match, in catalog order. -/
def findMenuItem (itemName : String) : Option (String × MenuEntry) :=
  if itemName = "" then none
  else
    let lowerName := jsTrim (jsLower itemName)
    match lookupStr fallbackMenu lowerName with
    | some e => some (lowerName, e)
    | none =>
      match fallbackMenu.find? (fun kv => jsLower kv.1 == lowerName) with
      | some kv => some kv
      | none => fallbackMenu.find? (fun kv => fuzzyHit (jsWords lowerName) kv.1)

/-- Embeds `getPrice` of src/config/menu.js: resolve the item, take
`priceMap[size]` when that lookup is truthy (JS: a price of 0 is falsy), else
fall back to the first price in the map's key order; null when unresolved or
the price table is empty. -/
def getPrice (itemName : String) (size : String) : Option ℚ :=
  match findMenuItem itemName with
  | none => none
  | some found =>
    match lookupStr found.2.priceMap size with
    | some p => if p ≠ 0 then some p else (found.2.priceMap.head?).map (fun sp => sp.2)
    | none => (found.2.priceMap.head?).map (fun sp => sp.2)

example : getPrice "glazed donut" "dozen" = some (cents 2299) := by decide
example : (findMenuItem "Chocolate Frosted").map (fun kv => kv.1) =
    some "chocolate frosted donut" := by decide
example : findMenuItem "pizza" = none := by decide

deriving instance DecidableEq for Except

/-- One line of an order: embeds the objects pushed by `OrderManager.addItem`. -/
structure LineItem where
  name : String
  size : String
  quantity : ℕ
  price : ℚ
  specialInstructions : Option String
  deriving DecidableEq, Repr

/-- Embeds the order object of `OrderManager.createEmptyOrder`
(src/services/order-manager.js).  The `timestamp` field (wall-clock string,
never read by any operation) is omitted.  `confirmed`/`logged` are booleans;
the remaining JS nullable strings are `Option String`. -/
structure ShopOrder where
  streamSid : Option String
  callSid : Option String
  fromNum : Option String
  items : List LineItem
  deliveryMethod : Option String
  address : Option String
  customerName : Option String
  customerPhone : Option String
  paymentMethod : Option String
  confirmed : Bool
  logged : Bool
  subtotal : ℚ
  tax : ℚ
  total : ℚ
  deriving DecidableEq, Repr

/-- Embeds the `OrderManager` instance: its constructor fields plus the
mutable order. -/
structure Mgr where
  streamSid : Option String
  callSid : Option String
  fromNumber : Option String
  order : ShopOrder
  deriving DecidableEq, Repr

/-- Embeds `OrderManager.createEmptyOrder`. -/
def createEmptyOrder (streamSid callSid fromNumber : Option String) : ShopOrder :=
  { streamSid := streamSid
    callSid := callSid
    fromNum := fromNumber
    items := []
    deliveryMethod := none
    address := none
    customerName := none
    customerPhone := fromNumber
    paymentMethod := none
    confirmed := false
    logged := false
    subtotal := cents 0
    tax := cents 0
    total := cents 0 }

/-- Embeds `new OrderManager(streamSid, callSid, fromNumber)`. -/
def initMgr (streamSid callSid fromNumber : Option String) : Mgr :=
  { streamSid := streamSid
    callSid := callSid
    fromNumber := fromNumber
    order := createEmptyOrder streamSid callSid fromNumber }

/-- The error taxonomy of the Order Aggregate operations (each constructor is
one `throw` site of order-manager.js). -/
inductive OrderError
  | itemNotFound (itemName : String)
  | priceUnavailable (itemName size : String)
  | invalidDeliveryMethod (method : String)
  | emptyAddress
  | emptyName
  | invalidPaymentMethod (method : String)
  | emptyOrder
  | missingCustomerName
  deriving DecidableEq, Repr

/-- JS `s || 'single'` on the size strings of `addItem`. -/
def orSingle (s : String) : String :=
  if s = "" then "single" else s

/-- The duplicate-line test of `addItem`: same name (case-insensitive against
the resolved canonical name) and same size (missing treated as "single"). -/
def sameLine (canonName size : String) (it : LineItem) : Bool :=
  jsLower it.name == jsLower canonName && orSingle it.size == orSingle size

/-- Embeds the `findIndex`/update/push merge step of `addItem`: bump the
quantity of the first line matching `(canonName, size)`, else append a new line. -/
def mergeLine (canonName size : String) (quantity : ℕ) (price : ℚ)
    (instr : Option String) : List LineItem → List LineItem
  | [] => [⟨canonName, orSingle size, quantity, price, instr⟩]
  | it :: rest =>
    if sameLine canonName size it then
      { it with quantity := it.quantity + quantity } :: rest
    else it :: mergeLine canonName size quantity price instr rest

/-- The subtotal loop of `recalculateTotals`: JS computes
`(item.price || 0) * (item.quantity || 1)`, so a line with quantity 0 is
counted as quantity 1 (`price` is always a number in every reachable order). -/
def sumItems (items : List LineItem) : ℚ :=
  items.foldl (fun acc it => qAdd acc (qMul it.price (qNat (if it.quantity = 0 then 1 else it.quantity)))) (cents 0)

/-- The default tax rate of `recalculateTotals` (0.08; every call site in the
repository uses the default). -/
def defaultTaxRate : ℚ := cents 8

/-- Embeds `OrderManager.recalculateTotals`: raw subtotal, tax and total are
computed on the unrounded values, then each stored field is rounded to cents. -/
def recalculateTotals (taxRate : ℚ) (o : ShopOrder) : ShopOrder :=
  let subtotal := sumItems o.items
  let tax := qMul subtotal taxRate
  let total := qAdd subtotal tax
  { o with subtotal := round2 subtotal, tax := round2 tax, total := round2 total }

/-- Embeds `OrderManager.addItem`: resolve via the catalog (ItemNotFound when
unresolved, PriceUnavailable when no price), merge into an existing line or
append, then recompute totals.  `sizeArg = none` is an omitted argument, which
the JS default turns into "single". -/
def addItem (m : Mgr) (itemName : String) (sizeArg : Option String) (quantity : ℕ)
    (instr : Option String) : Except OrderError Mgr :=
  let size := sizeArg.getD "single"
  match findMenuItem itemName with
  | none => .error (.itemNotFound itemName)
  | some found =>
    match getPrice itemName size with
    | none => .error (.priceUnavailable itemName size)
    | some price =>
      let items := mergeLine found.1 size quantity price instr m.order.items
      .ok { m with order := recalculateTotals defaultTaxRate { m.order with items := items } }

/-- Embeds `OrderManager.setDeliveryMethod`. -/
def setDeliveryMethod (m : Mgr) (method : String) : Except OrderError Mgr :=
  if method ≠ "pickup" && method ≠ "delivery" then
    .error (.invalidDeliveryMethod method)
  else .ok { m with order := { m.order with deliveryMethod := some method } }

/-- Embeds `OrderManager.setAddress` (`address = none` is a null argument). -/
def setAddress (m : Mgr) (address : Option String) : Except OrderError Mgr :=
  match address with
  | none => .error .emptyAddress
  | some a =>
    if jsTrim a = "" then .error .emptyAddress
    else .ok { m with order := { m.order with address := some (jsTrim a) } }

/-- Embeds `OrderManager.setCustomerName`. -/
def setCustomerName (m : Mgr) (name : Option String) : Except OrderError Mgr :=
  match name with
  | none => .error .emptyName
  | some n =>
    if jsTrim n = "" then .error .emptyName
    else .ok { m with order := { m.order with customerName := some (jsTrim n) } }

/-- Embeds `OrderManager.setCustomerPhone`: never fails; a falsy argument
(null/undefined/empty) falls back to the constructor's `fromNumber`. -/
def setCustomerPhone (m : Mgr) (phone : Option String) : Mgr :=
  { m with order := { m.order with customerPhone := jsOrStr phone m.fromNumber } }

/-- Embeds `OrderManager.setPaymentMethod`: accepted iff the lowercased string
contains "cash", "card", "credit" or "debit"; stores "cash" when it contains
"cash", else "card". -/
def setPaymentMethod (m : Mgr) (method : String) : Except OrderError Mgr :=
  let lowerMethod := jsLower method
  if !(strIncludes lowerMethod "cash" || strIncludes lowerMethod "card" ||
       strIncludes lowerMethod "credit" || strIncludes lowerMethod "debit") then
    .error (.invalidPaymentMethod method)
  else
    .ok { m with order := { m.order with
      paymentMethod := some (if strIncludes lowerMethod "cash" then "cash" else "card") } }

/-- Embeds `OrderManager.confirm`: EmptyOrder without items, then
MissingCustomerName when the name field is falsy, else set `confirmed`. -/
def confirm (m : Mgr) : Except OrderError Mgr :=
  if m.order.items.length = 0 then .error .emptyOrder
  else if !strTruthy m.order.customerName then .error .missingCustomerName
  else .ok { m with order := { m.order with confirmed := true } }

/-- Embeds `OrderManager.markAsLogged`. -/
def markAsLogged (m : Mgr) : Mgr :=
  { m with order := { m.order with logged := true } }

/-- Embeds `OrderManager.isReadyToLog` (the JS `&&` chain coerced to Bool). -/
def isReadyToLog (m : Mgr) : Bool :=
  m.order.confirmed && m.order.items.length > 0 &&
    strTruthy m.order.customerName && !m.order.logged

example :
    (addItem (initMgr none none none) "glazed donut" (some "dozen") 1 none).map
      (fun m => (m.order.items, m.order.subtotal, m.order.tax, m.order.total)) =
    .ok ([⟨"glazed donut", "dozen", 1, cents 2299, none⟩], cents 2299, cents 184, cents 2483) := by
  decide

/-- One Order Aggregate operation, with its arguments (the spec's §4.2 list). -/
inductive AggOp
  | addItemOp (itemName : String) (size : Option String) (quantity : ℕ) (instr : Option String)
  | setDeliveryMethodOp (method : String)
  | setAddressOp (address : Option String)
  | setCustomerNameOp (name : Option String)
  | setCustomerPhoneOp (phone : Option String)
  | setPaymentMethodOp (method : String)
  | confirmOp
  | markLoggedOp
  deriving DecidableEq, Repr

/-- Run one aggregate operation; a thrown domain error leaves the manager
unchanged (the orchestrator catches it at the tool boundary). -/
def applyAgg (op : AggOp) (m : Mgr) : Mgr :=
  match op with
  | .addItemOp n s q i => ((addItem m n s q i).toOption).getD m
  | .setDeliveryMethodOp v => ((setDeliveryMethod m v).toOption).getD m
  | .setAddressOp v => ((setAddress m v).toOption).getD m
  | .setCustomerNameOp v => ((setCustomerName m v).toOption).getD m
  | .setCustomerPhoneOp v => setCustomerPhone m v
  | .setPaymentMethodOp v => ((setPaymentMethod m v).toOption).getD m
  | .confirmOp => ((confirm m).toOption).getD m
  | .markLoggedOp => markAsLogged m

/-- Run a list of aggregate operations from left to right. -/
def applyAll (ops : List AggOp) (m : Mgr) : Mgr :=
  ops.foldl (fun m op => applyAgg op m) m

/-- Embeds the order-state effect of `_handleCallEnd` (the direct-forward
media-stream route): when the order has items and is not yet logged the
snapshot is dispatched to the sinks, but the handler sets `orderManager = null`
synchronously before any promise callback can run, so the sheets-success
callback's `orderManager.markAsLogged()` always throws on null and is
swallowed by its catch — the order state is unchanged whatever the sink
outcome (the `sheetsOk` argument is the sheets result, kept for the event's
shape). -/
def handleCallEnd (m : Mgr) (_sheetsOk : Bool) : Mgr := m

/-- One session-level event that can mutate the order: a tool call forwarded by
the orchestrator (`markLoggedOp` is not in the tool mapping table, so it is
excluded), or the end-of-call handler. -/
inductive SysOp
  | tool (t : AggOp) (h : t ≠ AggOp.markLoggedOp)
  | callEnd (sheetsOk : Bool)

/-- Run one session-level event. -/
def applySys (op : SysOp) (m : Mgr) : Mgr :=
  match op with
  | .tool t _ => applyAgg t m
  | .callEnd b => handleCallEnd m b

/-- Run a list of session-level events from left to right. -/
def applySysAll (ops : List SysOp) (m : Mgr) : Mgr :=
  ops.foldl (fun m op => applySys op m) m

/-- One attempted send as the Logger observes it: an HTTP response
(status, body), a request-level network error, or the 10s timeout. -/
inductive SendEvent
  | response (status : ℕ) (body : String)
  | netError (msg : String)
  | timedOut
  deriving DecidableEq, Repr

/-- Whether `logOrder` treats a send as failed: `_sendRequest` resolves
`success: statusCode in [200,300)` for responses and rejects on network errors
and timeouts; a resolved failure is re-thrown, so both paths retry alike. -/
def attemptFails : SendEvent → Bool
  | .response s _ => !(200 ≤ s && s < 300)
  | .netError _ => true
  | .timedOut => true

/-- The error message a failed send produces (`HTTP <code>: <body>` for a
non-2xx response, the rejection message otherwise). -/
def attemptErrMsg : SendEvent → String
  | .response s body => "HTTP " ++ toString s ++ ": " ++ body
  | .netError msg => msg
  | .timedOut => "Request timeout"

/-- The spec's transport classification of a failed send (timeouts, connection
resets, 429/502/503-class responses are transient).  Modelled from the spec:
the source has no such classification; this predicate exists only to state the
spec's retry policy against the code. -/
def specTransient : SendEvent → Bool
  | .response s _ => s == 429 || s == 502 || s == 503
  | .netError _ => true
  | .timedOut => true

/-- Embeds the `Logger` instance state: constructor configuration plus the
`loggedOrders` idempotency set (as a list of keys). -/
structure LoggerState where
  maxRetries : ℕ
  retryDelay : ℕ
  loggedOrders : List String
  deriving DecidableEq, Repr

/-- `new Logger(url)` with the default `maxRetries = 3`, `retryDelay = 1000`. -/
def initLogger : LoggerState :=
  { maxRetries := 3, retryDelay := 1000, loggedOrders := [] }

/-- The value `logOrder` resolves with: the already-logged skip object, the
success object (carrying the succeeding attempt number), or the final-failure
object (carrying the last error and the attempt count). -/
inductive LogResult
  | skipped
  | succeeded (attempt : ℕ)
  | failed (error : String) (attempts : ℕ)
  deriving DecidableEq, Repr

/-- What one `logOrder` attempt loop does, observationally: the result, the
number of `_sendRequest` calls issued, and the backoff delays slept (ms). -/
structure LoopOutcome where
  result : LogResult
  sendsMade : ℕ
  delays : List ℕ
  deriving DecidableEq, Repr

/-- Embeds the `for (attempt = 1; attempt <= maxRetries; ...)` loop of
`Logger.logOrder`; `sends n` is the outcome of the n-th `_sendRequest` call.
`fuel` counts the remaining loop iterations (`maxRetries - attempt + 1`). -/
def logLoop (sends : ℕ → SendEvent) (maxRetries retryDelay : ℕ) :
    ℕ → ℕ → LoopOutcome
  | _, 0 => ⟨.failed "" 0, 0, []⟩
  | attempt, fuel + 1 =>
    if attemptFails (sends attempt) then
      if attempt < maxRetries then
        let rest := logLoop sends maxRetries retryDelay (attempt + 1) fuel
        ⟨rest.result, rest.sendsMade + 1, retryDelay * 2 ^ (attempt - 1) :: rest.delays⟩
      else ⟨.failed (attemptErrMsg (sends attempt)) maxRetries, 1, []⟩
    else ⟨.succeeded attempt, 1, []⟩

/-- Embeds `Logger.logOrder`: the idempotency guard reads `loggedOrders` at
entry (the key is only added after a successful send), then the retry loop
runs.  Returns the resolved result, the state after the call, and the loop
observables. -/
def logOrder (st : LoggerState) (orderId : String) (sends : ℕ → SendEvent) :
    LogResult × LoggerState × ℕ × List ℕ :=
  if st.loggedOrders.contains orderId then (.skipped, st, 0, [])
  else
    let out := logLoop sends st.maxRetries st.retryDelay 1 st.maxRetries
    match out.result with
    | .succeeded k =>
      (.succeeded k, { st with loggedOrders := orderId :: st.loggedOrders },
        out.sendsMade, out.delays)
    | r => (r, st, out.sendsMade, out.delays)

/-- The idempotency key of an order snapshot: `orderData.callSid || orderData.streamSid`
(`getOrderForLogging` copies both identifiers from the order). -/
def orderKey (o : ShopOrder) : Option String :=
  jsOrStr o.callSid o.streamSid

example :
    logOrder initLogger "CA1" (fun n => if n ≤ 2 then .response 400 "bad" else .response 200 "ok") =
    (.succeeded 3, ⟨3, 1000, ["CA1"]⟩, 3, [1000, 2000]) := by decide
example :
    logOrder ⟨3, 1000, ["CA1"]⟩ "CA1" (fun _ => .response 200 "ok") =
    (.skipped, ⟨3, 1000, ["CA1"]⟩, 0, []) := by decide

theorem cents_add (a b : ℤ) : cents a + cents b = cents (a + b) := by
  rw [cents_eq, cents_eq, cents_eq]
  push_cast
  ring

theorem round2_cents (n : ℤ) : round2 (cents n) = cents n := by
  rw [round2_eq, cents_eq]
  have h : ((n : ℚ) / 100) * 100 = (n : ℚ) := by ring
  rw [h, round_intCast]

theorem round2_round2 (x : ℚ) : round2 (round2 x) = round2 x := by
  have h : round2 x = cents (roundQ (qMul x (qNat 100))) := rfl
  rw [h, round2_cents]

theorem round2_cents_add (n : ℤ) (x : ℚ) :
    round2 (cents n + x) = cents n + round2 x := by
  rw [round2_eq, round2_eq, cents_eq]
  have h : ((n : ℚ) / 100 + x) * 100 = (n : ℚ) + x * 100 := by ring
  rw [h, round_int_add]
  push_cast
  ring

/-- A rational whose denominator divides 100 is an exact number of cents. -/
theorem dvd_cents {p : ℚ} (h : p.den ∣ 100) : ∃ n : ℤ, p = cents n := by
  obtain ⟨c, hc⟩ := h
  have hcn : c ≠ 0 := by
    intro h0
    rw [h0, mul_zero] at hc
    exact absurd hc (by norm_num)
  have hc0 : (c : ℤ) ≠ 0 := by exact_mod_cast hcn
  refine ⟨p.num * c, ?_⟩
  rw [cents]
  have h100 : (100 : ℤ) = (p.den : ℤ) * (c : ℤ) := by exact_mod_cast hc
  rw [h100, Rat.divInt_mul_right hc0, Rat.num_divInt_den]

/-- Every price table of the hardcoded menu is non-empty, lists its keys in the
declared size order, and holds nonzero exact-cent prices. -/
theorem menu_entries_good :
    ∀ kv ∈ fallbackMenu, kv.2.priceMap ≠ [] ∧
      kv.2.priceMap.map Prod.fst = kv.2.sizes ∧
      ∀ sp ∈ kv.2.priceMap, sp.2 ≠ 0 ∧ sp.2.den ∣ 100 := by
  decide

theorem lookupStr_mem {α : Type} {l : List (String × α)} {k : String} {v : α}
    (h : lookupStr l k = some v) : ∃ kv ∈ l, kv.2 = v := by
  rw [lookupStr] at h
  rcases Option.map_eq_some'.mp h with ⟨kv, hfind, hv⟩
  exact ⟨kv, List.mem_of_find?_eq_some hfind, hv⟩

/-- Whatever `findMenuItem` resolves, its entry is one of the catalog's. -/
theorem findMenuItem_mem {q : String} {r : String × MenuEntry}
    (h : findMenuItem q = some r) : ∃ k, (k, r.2) ∈ fallbackMenu := by
  rw [findMenuItem] at h
  split at h
  · exact absurd h (by simp)
  · cases hl : lookupStr fallbackMenu (jsTrim (jsLower q)) with
    | some e =>
      simp only [hl] at h
      rcases lookupStr_mem hl with ⟨kv, hmem, hv⟩
      obtain rfl : (jsTrim (jsLower q), e) = r := Option.some.inj h
      refine ⟨kv.1, ?_⟩
      rw [← hv]
      exact hmem
    | none =>
      simp only [hl] at h
      cases hc : fallbackMenu.find? (fun kv => jsLower kv.1 == jsTrim (jsLower q)) with
      | some kv =>
        simp only [hc] at h
        obtain rfl : kv = r := Option.some.inj h
        exact ⟨kv.1, List.mem_of_find?_eq_some hc⟩
      | none =>
        simp only [hc] at h
        exact ⟨r.1, List.mem_of_find?_eq_some h⟩

/-- Any price `getPrice` returns is one of the resolved entry's table prices. -/
theorem getPrice_mem {q s : String} {p : ℚ} (h : getPrice q s = some p) :
    ∃ r, findMenuItem q = some r ∧ ∃ sp ∈ r.2.priceMap, sp.2 = p := by
  rw [getPrice] at h
  cases hf : findMenuItem q with
  | none => rw [hf] at h; exact absurd h (by simp)
  | some found =>
    rw [hf] at h
    refine ⟨found, rfl, ?_⟩
    cases hl : lookupStr found.2.priceMap s with
    | some p0 =>
      simp only [hl] at h
      by_cases h0 : p0 ≠ 0
      · rw [if_pos h0] at h
        rcases lookupStr_mem hl with ⟨sp, hmem, hv⟩
        refine ⟨sp, hmem, ?_⟩
        rw [hv]
        exact Option.some.inj h
      · rw [if_neg h0] at h
        rcases Option.map_eq_some'.mp h with ⟨sp, hhead, hv⟩
        exact ⟨sp, List.mem_of_mem_head? hhead, hv⟩
    | none =>
      simp only [hl] at h
      rcases Option.map_eq_some'.mp h with ⟨sp, hhead, hv⟩
      exact ⟨sp, List.mem_of_mem_head? hhead, hv⟩

/-- Any price `getPrice` returns is a nonzero exact number of cents. -/
theorem getPrice_cents {q s : String} {p : ℚ} (h : getPrice q s = some p) :
    p ≠ 0 ∧ ∃ n : ℤ, p = cents n := by
  rcases getPrice_mem h with ⟨r, hr, sp, hmem, hv⟩
  rcases findMenuItem_mem hr with ⟨k, hk⟩
  rcases menu_entries_good _ hk with ⟨-, -, hall⟩
  rcases hall sp hmem with ⟨h0, hdvd⟩
  exact ⟨hv ▸ h0, hv ▸ dvd_cents hdvd⟩

theorem cents_zero : cents 0 = 0 := by
  rw [cents_eq]
  norm_num

theorem cents_mul_nat (n : ℤ) (k : ℕ) : cents n * (k : ℚ) = cents (n * k) := by
  rw [cents_eq, cents_eq]
  push_cast
  ring

/-- Well-formed line items: exact-cent prices and quantities at least 1 (the
data model declares `quantity : integer ≥ 1`; `addItem` stores the given
quantity, so this is the image of valid operations). -/
def GoodItems (items : List LineItem) : Prop :=
  ∀ it ∈ items, (∃ n : ℤ, it.price = cents n) ∧ 1 ≤ it.quantity

/-- The subtotal as the spec words it: the sum over items of unitPrice × quantity. -/
def specSubtotal (items : List LineItem) : ℚ :=
  (items.map (fun it => it.price * (it.quantity : ℚ))).sum

/-- The totals equations of the spec (§3 invariants), at the default 8% rate. -/
def TotalsOk (o : ShopOrder) : Prop :=
  o.subtotal = round2 (specSubtotal o.items) ∧
  o.tax = round2 (o.subtotal * defaultTaxRate) ∧
  o.total = round2 (o.subtotal + o.tax)

theorem foldl_qAdd (items : List LineItem) (acc : ℚ) :
    items.foldl
      (fun a it => qAdd a (qMul it.price (qNat (if it.quantity = 0 then 1 else it.quantity)))) acc
    = acc +
      (items.map (fun it => it.price * ((if it.quantity = 0 then 1 else it.quantity : ℕ) : ℚ))).sum := by
  induction items generalizing acc with
  | nil => simp
  | cons it rest ih =>
    rw [List.foldl_cons, ih, List.map_cons, List.sum_cons, qAdd_eq, qMul_eq, qNat_eq]
    ring

theorem sumItems_spec {items : List LineItem} (h : GoodItems items) :
    sumItems items = specSubtotal items := by
  rw [sumItems, foldl_qAdd, cents_zero, zero_add, specSubtotal]
  congr 1
  apply List.map_congr_left
  intro it hit
  rcases h it hit with ⟨-, hq⟩
  have : ¬ it.quantity = 0 := by omega
  rw [if_neg this]

theorem specSubtotal_cents {items : List LineItem} (h : GoodItems items) :
    ∃ N : ℤ, specSubtotal items = cents N := by
  induction items with
  | nil => exact ⟨0, by simp [specSubtotal, cents_zero]⟩
  | cons it rest ih =>
    rcases h it (by simp) with ⟨⟨n, hn⟩, -⟩
    rcases ih (fun x hx => h x (by simp [hx])) with ⟨N, hN⟩
    refine ⟨n * it.quantity + N, ?_⟩
    rw [specSubtotal, List.map_cons, List.sum_cons, ← specSubtotal, hN, hn, cents_mul_nat,
      cents_add]

theorem recalc_ok (o : ShopOrder) (h : GoodItems o.items) :
    TotalsOk (recalculateTotals defaultTaxRate o) := by
  have hspec : sumItems o.items = specSubtotal o.items := sumItems_spec h
  rcases specSubtotal_cents h with ⟨N, hN⟩
  have hS : sumItems o.items = cents N := by rw [hspec, hN]
  have hsub : round2 (sumItems o.items) = cents N := by rw [hS, round2_cents]
  refine ⟨?_, ?_, ?_⟩
  · show round2 (sumItems o.items) = round2 (specSubtotal o.items)
    rw [hspec]
  · show round2 (qMul (sumItems o.items) defaultTaxRate)
      = round2 (round2 (sumItems o.items) * defaultTaxRate)
    rw [qMul_eq, hsub, hS]
  · show round2 (qAdd (sumItems o.items) (qMul (sumItems o.items) defaultTaxRate))
      = round2 (round2 (sumItems o.items)
          + round2 (qMul (sumItems o.items) defaultTaxRate))
    rw [qAdd_eq, qMul_eq, hsub, hS, round2_cents_add, round2_cents_add, round2_round2]

theorem mergeLine_good {c s : String} {q : ℕ} {p : ℚ} {i : Option String}
    {items : List LineItem} (h : GoodItems items) (hp : ∃ n : ℤ, p = cents n) (hq : 1 ≤ q) :
    GoodItems (mergeLine c s q p i items) := by
  induction items with
  | nil =>
    intro it hit
    simp [mergeLine] at hit
    subst hit
    exact ⟨hp, hq⟩
  | cons it0 rest ih =>
    have h0 := h it0 (by simp)
    have hrest : GoodItems rest := fun x hx => h x (by simp [hx])
    intro it hit
    rw [mergeLine] at hit
    by_cases hs : sameLine c s it0
    · rw [if_pos hs] at hit
      rcases List.mem_cons.mp hit with hhd | htl
      · subst hhd
        refine ⟨h0.1, ?_⟩
        show 1 ≤ it0.quantity + q
        have := h0.2
        omega
      · exact h it (by simp [htl])
    · rw [if_neg hs] at hit
      rcases List.mem_cons.mp hit with hhd | htl
      · subst hhd
        exact h0
      · exact ih hrest it htl

/-- Validity of an operation's arguments: the data model requires quantities to
be integers ≥ 1; every other operation is unconstrained. -/
def AggOp.valid : AggOp → Prop
  | .addItemOp _ _ q _ => 1 ≤ q
  | _ => True

instance : DecidablePred AggOp.valid := fun op =>
  match op with
  | .addItemOp _ _ q _ => (inferInstance : Decidable (1 ≤ q))
  | .setDeliveryMethodOp _ => (inferInstance : Decidable True)
  | .setAddressOp _ => (inferInstance : Decidable True)
  | .setCustomerNameOp _ => (inferInstance : Decidable True)
  | .setCustomerPhoneOp _ => (inferInstance : Decidable True)
  | .setPaymentMethodOp _ => (inferInstance : Decidable True)
  | .confirmOp => (inferInstance : Decidable True)
  | .markLoggedOp => (inferInstance : Decidable True)

/-- The state invariant carried through every aggregate operation. -/
def MgrInv (m : Mgr) : Prop :=
  GoodItems m.order.items ∧ TotalsOk m.order

theorem addItem_ok_inv {m m' : Mgr} {n : String} {s : Option String} {q : ℕ}
    {i : Option String} (hq : 1 ≤ q) (h : MgrInv m) (hA : addItem m n s q i = .ok m') :
    MgrInv m' := by
  rw [addItem] at hA
  rcases hf : findMenuItem n with - | found
  · simp only [hf] at hA
    exact Except.noConfusion hA
  · simp only [hf] at hA
    rcases hp : getPrice n (s.getD "single") with - | price
    · simp only [hp] at hA
      exact Except.noConfusion hA
    · simp only [hp] at hA
      have h2 := Except.ok.inj hA
      subst h2
      have hgood : GoodItems (mergeLine found.1 (s.getD "single") q price i m.order.items) :=
        mergeLine_good h.1 (getPrice_cents hp).2 hq
      exact ⟨hgood, recalc_ok _ hgood⟩

theorem applyAgg_inv (op : AggOp) (hop : op.valid) {m : Mgr} (h : MgrInv m) :
    MgrInv (applyAgg op m) := by
  cases op with
  | addItemOp n s q i =>
    rcases hA : addItem m n s q i with e | m'
    · simpa [applyAgg, hA, Except.toOption] using h
    · simpa [applyAgg, hA, Except.toOption] using addItem_ok_inv hop h hA
  | setDeliveryMethodOp v =>
    simp only [applyAgg, setDeliveryMethod]
    split
    · simpa [Except.toOption] using h
    · simpa [Except.toOption, MgrInv, GoodItems, TotalsOk] using h
  | setAddressOp v =>
    rcases v with - | a
    · simpa [applyAgg, setAddress, Except.toOption] using h
    · simp only [applyAgg, setAddress]
      split
      · simpa [Except.toOption] using h
      · simpa [Except.toOption, MgrInv, GoodItems, TotalsOk] using h
  | setCustomerNameOp v =>
    rcases v with - | a
    · simpa [applyAgg, setCustomerName, Except.toOption] using h
    · simp only [applyAgg, setCustomerName]
      split
      · simpa [Except.toOption] using h
      · simpa [Except.toOption, MgrInv, GoodItems, TotalsOk] using h
  | setCustomerPhoneOp v =>
    simpa [applyAgg, setCustomerPhone, MgrInv, GoodItems, TotalsOk] using h
  | setPaymentMethodOp v =>
    simp only [applyAgg, setPaymentMethod]
    split
    · simpa [Except.toOption] using h
    · simpa [Except.toOption, MgrInv, GoodItems, TotalsOk] using h
  | confirmOp =>
    simp only [applyAgg, confirm]
    split
    · simpa [Except.toOption] using h
    · split
      · simpa [Except.toOption] using h
      · simpa [Except.toOption, MgrInv, GoodItems, TotalsOk] using h
  | markLoggedOp =>
    simpa [applyAgg, markAsLogged, MgrInv, GoodItems, TotalsOk] using h

theorem initMgr_inv (sid csid fnum : Option String) : MgrInv (initMgr sid csid fnum) := by
  refine ⟨?_, ?_, ?_, ?_⟩
  · intro it hit
    simp [initMgr, createEmptyOrder] at hit
  · show cents 0 = round2 (specSubtotal [])
    rw [specSubtotal, List.map_nil, List.sum_nil, ← cents_zero, round2_cents]
  · show cents 0 = round2 (cents 0 * defaultTaxRate)
    rw [cents_zero, zero_mul, ← cents_zero, round2_cents]
  · show cents 0 = round2 (cents 0 + cents 0)
    rw [cents_zero, zero_add, ← cents_zero, round2_cents]

theorem applyAll_inv (ops : List AggOp) (hv : ∀ op ∈ ops, op.valid) {m : Mgr}
    (h : MgrInv m) : MgrInv (applyAll ops m) := by
  induction ops generalizing m with
  | nil => simpa [applyAll] using h
  | cons op rest ih =>
    have hstep : MgrInv (applyAgg op m) := applyAgg_inv op (hv op (by simp)) h
    have hsplit : applyAll (op :: rest) m = applyAll rest (applyAgg op m) := rfl
    rw [hsplit]
    exact ih (fun o ho => hv o (by simp [ho])) hstep

/-- C2: after any sequence of Order Aggregate operations (with valid
quantities), the derived fields satisfy subtotal = round2(Σ unitPrice×qty),
tax = round2(subtotal×taxRate) and total = round2(subtotal+tax), at the
default taxRate 0.08. -/
theorem totals_invariant_reachable (sid csid fnum : Option String) (ops : List AggOp)
    (hv : ∀ op ∈ ops, op.valid) :
    TotalsOk (applyAll ops (initMgr sid csid fnum)).order :=
  (applyAll_inv ops hv (initMgr_inv sid csid fnum)).2

theorem totals_invariant_reachable_witness :
    TotalsOk (applyAll
      [AggOp.addItemOp "glazed donut" (some "dozen") 1 none,
       AggOp.setCustomerNameOp (some "Jane Smith"), AggOp.confirmOp]
      (initMgr none (some "CA1") none)).order :=
  totals_invariant_reachable none (some "CA1") none _ (by decide)

theorem addItem_ok_shape {m m' : Mgr} {n : String} {s : Option String} {q : ℕ}
    {i : Option String} (hA : addItem m n s q i = .ok m') :
    ∃ found price, findMenuItem n = some found ∧
      getPrice n (s.getD "single") = some price ∧
      m' = { m with
              order := recalculateTotals defaultTaxRate
                { m.order with
                    items :=
                      mergeLine found.1 (s.getD "single") q price i m.order.items } } := by
  rw [addItem] at hA
  rcases hf : findMenuItem n with - | found
  · simp only [hf] at hA
    exact Except.noConfusion hA
  · simp only [hf] at hA
    rcases hp : getPrice n (s.getD "single") with - | price
    · simp only [hp] at hA
      exact Except.noConfusion hA
    · simp only [hp] at hA
      exact ⟨found, price, rfl, rfl, (Except.ok.inj hA).symm⟩

theorem mergeLine_ne_nil (c s : String) (q : ℕ) (p : ℚ) (i : Option String)
    (items : List LineItem) : mergeLine c s q p i items ≠ [] := by
  cases items with
  | nil => simp [mergeLine]
  | cons it rest =>
    rw [mergeLine]
    split <;> simp

/-- No aggregate operation removes line items: a non-empty order stays non-empty. -/
theorem applyAgg_items_ne (op : AggOp) {m : Mgr} (h : m.order.items ≠ []) :
    (applyAgg op m).order.items ≠ [] := by
  cases op with
  | addItemOp n s q i =>
    rcases hA : addItem m n s q i with e | m'
    · simpa [applyAgg, hA, Except.toOption] using h
    · rcases addItem_ok_shape hA with ⟨found, price, -, -, rfl⟩
      simp [applyAgg, hA, Except.toOption, recalculateTotals]
      exact mergeLine_ne_nil _ _ _ _ _ _
  | setDeliveryMethodOp v =>
    simp only [applyAgg, setDeliveryMethod]
    split
    · simpa [Except.toOption] using h
    · simpa [Except.toOption] using h
  | setAddressOp v =>
    rcases v with - | a
    · simpa [applyAgg, setAddress, Except.toOption] using h
    · simp only [applyAgg, setAddress]
      split
      · simpa [Except.toOption] using h
      · simpa [Except.toOption] using h
  | setCustomerNameOp v =>
    rcases v with - | a
    · simpa [applyAgg, setCustomerName, Except.toOption] using h
    · simp only [applyAgg, setCustomerName]
      split
      · simpa [Except.toOption] using h
      · simpa [Except.toOption] using h
  | setCustomerPhoneOp v =>
    simpa [applyAgg, setCustomerPhone] using h
  | setPaymentMethodOp v =>
    simp only [applyAgg, setPaymentMethod]
    split
    · simpa [Except.toOption] using h
    · simpa [Except.toOption] using h
  | confirmOp =>
    simp only [applyAgg, confirm]
    split
    · simpa [Except.toOption] using h
    · split
      · simpa [Except.toOption] using h
      · simpa [Except.toOption] using h
  | markLoggedOp =>
    simpa [applyAgg, markAsLogged] using h

/-- No tool-mapped aggregate operation touches the `logged` flag. -/
theorem applyAgg_logged_eq (op : AggOp) (hop : op ≠ AggOp.markLoggedOp) (m : Mgr) :
    (applyAgg op m).order.logged = m.order.logged := by
  cases op with
  | addItemOp n s q i =>
    rcases hA : addItem m n s q i with e | m'
    · simp [applyAgg, hA, Except.toOption]
    · rcases addItem_ok_shape hA with ⟨found, price, -, -, rfl⟩
      simp [applyAgg, hA, Except.toOption, recalculateTotals]
  | setDeliveryMethodOp v =>
    simp only [applyAgg, setDeliveryMethod]
    split <;> simp [Except.toOption]
  | setAddressOp v =>
    rcases v with - | a
    · simp [applyAgg, setAddress, Except.toOption]
    · simp only [applyAgg, setAddress]
      split <;> simp [Except.toOption]
  | setCustomerNameOp v =>
    rcases v with - | a
    · simp [applyAgg, setCustomerName, Except.toOption]
    · simp only [applyAgg, setCustomerName]
      split <;> simp [Except.toOption]
  | setCustomerPhoneOp v =>
    simp [applyAgg, setCustomerPhone]
  | setPaymentMethodOp v =>
    simp only [applyAgg, setPaymentMethod]
    split <;> simp [Except.toOption]
  | confirmOp =>
    simp only [applyAgg, confirm]
    split
    · simp [Except.toOption]
    · split <;> simp [Except.toOption]
  | markLoggedOp =>
    exact absurd rfl hop

/-- No aggregate operation (including `markLogged`) resets `logged` to false. -/
theorem applyAgg_logged_mono (op : AggOp) (m : Mgr) (h : m.order.logged = true) :
    (applyAgg op m).order.logged = true := by
  by_cases hop : op = AggOp.markLoggedOp
  · subst hop
    simp [applyAgg, markAsLogged]
  · rw [applyAgg_logged_eq op hop]
    exact h

theorem handleCallEnd_logged_mono (b : Bool) (m : Mgr) (h : m.order.logged = true) :
    (handleCallEnd m b).order.logged = true := h


/-- No session-level event sets `logged`: the tool mapping excludes
`markLogged`, and the call-end handler's marking callback dies on the nulled
manager, so a not-yet-logged order stays not logged. -/
theorem applySys_logged_false (op : SysOp) {m : Mgr} (h : m.order.logged = false) :
    (applySys op m).order.logged = false := by
  cases op with
  | tool t ht =>
    rw [applySys, applyAgg_logged_eq t ht]
    exact h
  | callEnd b => exact h

theorem applySysAll_logged_false (ops : List SysOp) {m : Mgr}
    (h : m.order.logged = false) : (applySysAll ops m).order.logged = false := by
  induction ops generalizing m with
  | nil => exact h
  | cons op rest ih =>
    have hsplit : applySysAll (op :: rest) m = applySysAll rest (applySys op m) := rfl
    rw [hsplit]
    exact ih (applySys_logged_false op h)

/-- C4: in every reachable Order state, logged=true implies confirmed=true and
a non-empty items list — in fact the flag never becomes true at all through
the running system, because the call-end handler nulls the manager before the
sheets callback can mark it (first conjunct), so the implication holds; and no
operation, aggregate or call-end, ever resets `logged` to false, so it
transitions false→true at most once. -/
theorem logged_invariant :
    (∀ (sid csid fnum : Option String) (ops : List SysOp),
      (applySysAll ops (initMgr sid csid fnum)).order.logged = false) ∧
    (∀ (sid csid fnum : Option String) (ops : List SysOp),
      (applySysAll ops (initMgr sid csid fnum)).order.logged = true →
      (applySysAll ops (initMgr sid csid fnum)).order.confirmed = true ∧
      (applySysAll ops (initMgr sid csid fnum)).order.items ≠ []) ∧
    (∀ (op : AggOp) (m : Mgr), m.order.logged = true →
      (applyAgg op m).order.logged = true) ∧
    (∀ (b : Bool) (m : Mgr), m.order.logged = true →
      (handleCallEnd m b).order.logged = true) := by
  have hfalse : ∀ (sid csid fnum : Option String) (ops : List SysOp),
      (applySysAll ops (initMgr sid csid fnum)).order.logged = false :=
    fun sid csid fnum ops => applySysAll_logged_false ops rfl
  refine ⟨hfalse, ?_, applyAgg_logged_mono, handleCallEnd_logged_mono⟩
  intro sid csid fnum ops h
  rw [hfalse sid csid fnum ops] at h
  exact Bool.noConfusion h

theorem logged_invariant_witness :
    (applyAgg AggOp.confirmOp (markAsLogged (initMgr none (some "CA13") none))).order.logged
      = true :=
  logged_invariant.2.2.1 AggOp.confirmOp (markAsLogged (initMgr none (some "CA13") none))
    (by decide)

theorem orSingle_orSingle (s : String) : orSingle (orSingle s) = orSingle s := by
  by_cases hs : s = "" <;> simp [orSingle, hs]

theorem sameLine_new (c s : String) (q : ℕ) (p : ℚ) (i : Option String) :
    sameLine c s ⟨c, orSingle s, q, p, i⟩ = true := by
  simp [sameLine, orSingle_orSingle]

theorem recalc_items (r : ℚ) (o : ShopOrder) : (recalculateTotals r o).items = o.items := rfl

theorem mergeLine_all_miss {c s : String} {q : ℕ} {p : ℚ} {i : Option String}
    {items : List LineItem} (h : ∀ it ∈ items, sameLine c s it = false) :
    mergeLine c s q p i items = items ++ [⟨c, orSingle s, q, p, i⟩] := by
  induction items with
  | nil => simp [mergeLine]
  | cons it0 rest ih =>
    rw [mergeLine, if_neg (by simp [h it0 (by simp)]),
      ih (fun x hx => h x (by simp [hx]))]
    simp

theorem mergeLine_append_hit {c s : String} {q : ℕ} {p : ℚ} {i : Option String}
    {items : List LineItem} (h : ∀ it ∈ items, sameLine c s it = false)
    (it0 : LineItem) (h0 : sameLine c s it0 = true) :
    mergeLine c s q p i (items ++ [it0]) =
      items ++ [{ it0 with quantity := it0.quantity + q }] := by
  induction items with
  | nil => simp [mergeLine, h0]
  | cons it1 rest ih =>
    rw [List.cons_append, mergeLine, if_neg (by simp [h it1 (by simp)]),
      ih (fun x hx => h x (by simp [hx])), List.cons_append]

theorem addItem_eq_ok (m : Mgr) (itemName : String) (sizeArg : Option String)
    (q : ℕ) (i : Option String) {found : String × MenuEntry} {p : ℚ}
    (hf : findMenuItem itemName = some found)
    (hp : getPrice itemName (sizeArg.getD "single") = some p) :
    addItem m itemName sizeArg q i = .ok { m with
      order := recalculateTotals defaultTaxRate
        { m.order with
            items :=
              mergeLine found.1 (sizeArg.getD "single") q p i m.order.items } } := by
  rw [addItem]
  simp only [hf, hp]

/-- C1: adding the same (item, size) twice merges into one line item with the
summed quantity (name comparison case-insensitive against the resolved
canonical name, missing size treated as "single"); concretely, adding a dozen
glazed donuts with quantities 1 then 2 leaves one line of quantity 3 at unit
price 22.99 with subtotal 68.97. -/
theorem addItem_same_pair_merges :
    (∀ (m : Mgr) (itemName : String) (sizeArg : Option String) (q1 q2 : ℕ)
       (found : String × MenuEntry) (p : ℚ),
      findMenuItem itemName = some found →
      getPrice itemName (sizeArg.getD "single") = some p →
      (∀ it ∈ m.order.items, sameLine found.1 (sizeArg.getD "single") it = false) →
      ∃ m1 m2,
        addItem m itemName sizeArg q1 none = .ok m1 ∧
        addItem m1 itemName sizeArg q2 none = .ok m2 ∧
        m2.order.items
          = m.order.items ++
            [⟨found.1, orSingle (sizeArg.getD "single"), q1 + q2, p, none⟩] ∧
        (m2.order.items.filter
          (fun it => sameLine found.1 (sizeArg.getD "single") it)).length = 1) ∧
    (((addItem (initMgr none (some "CA3") none) "glazed donut" (some "dozen") 1 none).bind
        (fun m1 => addItem m1 "glazed donut" (some "dozen") 2 none)).map
      (fun m2 => (m2.order.items, m2.order.subtotal))
      = .ok ([⟨"glazed donut", "dozen", 3, cents 2299, none⟩], cents 6897)) := by
  constructor
  · intro m itemName sizeArg q1 q2 found p hf hp hmiss
    have hm1 : mergeLine found.1 (sizeArg.getD "single") q1 p none m.order.items
        = m.order.items ++ [⟨found.1, orSingle (sizeArg.getD "single"), q1, p, none⟩] :=
      mergeLine_all_miss hmiss
    refine ⟨_, _, addItem_eq_ok m itemName sizeArg q1 none hf hp,
      addItem_eq_ok _ itemName sizeArg q2 none hf hp, ?_, ?_⟩
    · show mergeLine found.1 (sizeArg.getD "single") q2 p none
          (mergeLine found.1 (sizeArg.getD "single") q1 p none m.order.items)
        = m.order.items ++
            [⟨found.1, orSingle (sizeArg.getD "single"), q1 + q2, p, none⟩]
      rw [hm1, mergeLine_append_hit hmiss _ (sameLine_new found.1 (sizeArg.getD "single") q1 p none)]
    · show (List.filter (fun it => sameLine found.1 (sizeArg.getD "single") it)
          (mergeLine found.1 (sizeArg.getD "single") q2 p none
            (mergeLine found.1 (sizeArg.getD "single") q1 p none m.order.items))).length = 1
      rw [hm1, mergeLine_append_hit hmiss _ (sameLine_new found.1 (sizeArg.getD "single") q1 p none),
        List.filter_append]
      have hnil : List.filter (fun it => sameLine found.1 (sizeArg.getD "single") it)
          m.order.items = [] := by
        rw [List.filter_eq_nil_iff]
        intro it hit
        simp [hmiss it hit]
      rw [hnil]
      simp [sameLine_new]
  · decide

/-- The first catalog entry, used to instantiate concrete statements. -/
def glazedEntry : MenuEntry :=
  ⟨["single", "half-dozen", "dozen"],
    [("single", cents 249), ("half-dozen", cents 1299), ("dozen", cents 2299)]⟩

theorem addItem_same_pair_merges_witness :
    ∃ m1 m2,
      addItem (initMgr none (some "CA4") none) "glazed donut" (some "dozen") 1 none = .ok m1 ∧
      addItem m1 "glazed donut" (some "dozen") 2 none = .ok m2 ∧
      m2.order.items
        = (initMgr none (some "CA4") none).order.items ++
          [⟨("glazed donut", glazedEntry).1, orSingle ((some "dozen" : Option String).getD "single"),
            1 + 2, cents 2299, none⟩] ∧
      (m2.order.items.filter
        (fun it => sameLine ("glazed donut", glazedEntry).1
          (((some "dozen" : Option String)).getD "single") it)).length = 1 :=
  addItem_same_pair_merges.1 (initMgr none (some "CA4") none) "glazed donut" (some "dozen") 1 2
    ("glazed donut", glazedEntry) (cents 2299) (by decide) (by decide) (by decide)

/-- C3 counterexample: an HTTP 400 response is not transport-transient, yet
`logOrder` retries it — a sink failing twice with 400 and succeeding on the
third attempt yields success after three sends with backoff [1000, 2000]ms,
not an immediate failure with attempts = 1.  The source classifies nothing:
every failed attempt is retried alike. -/
theorem retry_not_classified_cex :
    specTransient (.response 400 "bad") = false ∧
    logOrder initLogger "CA6"
      (fun n => if n ≤ 2 then .response 400 "bad" else .response 200 "ok")
      = (.succeeded 3, ⟨3, 1000, ["CA6"]⟩, 3, [1000, 2000]) := by decide

/-- C3 (amended): the dispatcher retries any failed send — transient or not —
up to maxRetries = 3 attempts with exponential backoff (base 1000ms,
doubling); success on attempt k reports attempt = k, and exhaustion reports
failure with attempts = 3 after three sends. -/
theorem logOrder_retry_policy (orderId : String) (sends : ℕ → SendEvent) :
    (attemptFails (sends 1) = false →
      logOrder initLogger orderId sends = (.succeeded 1, ⟨3, 1000, [orderId]⟩, 1, [])) ∧
    (attemptFails (sends 1) = true → attemptFails (sends 2) = false →
      logOrder initLogger orderId sends
        = (.succeeded 2, ⟨3, 1000, [orderId]⟩, 2, [1000])) ∧
    (attemptFails (sends 1) = true → attemptFails (sends 2) = true →
      attemptFails (sends 3) = false →
      logOrder initLogger orderId sends
        = (.succeeded 3, ⟨3, 1000, [orderId]⟩, 3, [1000, 2000])) ∧
    (attemptFails (sends 1) = true → attemptFails (sends 2) = true →
      attemptFails (sends 3) = true →
      logOrder initLogger orderId sends
        = (.failed (attemptErrMsg (sends 3)) 3, initLogger, 3, [1000, 2000])) := by
  refine ⟨?_, ?_, ?_, ?_⟩
  · intro h1
    simp [logOrder, initLogger, logLoop, h1]
  · intro h1 h2
    simp [logOrder, initLogger, logLoop, h1, h2]
  · intro h1 h2 h3
    simp [logOrder, initLogger, logLoop, h1, h2, h3]
  · intro h1 h2 h3
    simp [logOrder, initLogger, logLoop, h1, h2, h3]

theorem logOrder_retry_policy_witness :
    logOrder initLogger "CA7"
      (fun n => if n ≤ 2 then SendEvent.timedOut else .response 200 "ok")
      = (.succeeded 3, ⟨3, 1000, ["CA7"]⟩, 3, [1000, 2000]) :=
  (logOrder_retry_policy "CA7"
    (fun n => if n ≤ 2 then SendEvent.timedOut else .response 200 "ok")).2.2.1
    (by decide) (by decide) (by decide)

/-- C5 counterexample: the idempotency set is only written after a successful
send, so a second `deliver` issued before the first completes still observes
the pre-completion state (here: the initial one) and performs its own network
send (1 send, a success result) instead of a no-op "already delivered" skip. -/
theorem deliver_inflight_not_deduped_cex :
    logOrder initLogger "CA5" (fun _ => .response 200 "ok")
      = (.succeeded 1, ⟨3, 1000, ["CA5"]⟩, 1, []) := by decide

/-- C5 (amended): after a prior successful delivery for the same key, a second
`deliver` call is a no-op that reports "already delivered" and makes no
network send; a second call issued before the first completes is not
deduplicated (see the counterexample). -/
theorem deliver_skip_after_success (st : LoggerState) (orderId : String)
    (sends sends2 : ℕ → SendEvent) (k : ℕ)
    (h : (logOrder st orderId sends).1 = .succeeded k) :
    logOrder ((logOrder st orderId sends).2.1) orderId sends2
      = (.skipped, (logOrder st orderId sends).2.1, 0, []) := by
  by_cases hc : st.loggedOrders.contains orderId = true
  · rw [logOrder, if_pos hc] at h
    exact absurd h (by simp)
  · have hst : (logOrder st orderId sends).2.1.loggedOrders
        = orderId :: st.loggedOrders := by
      rw [logOrder, if_neg hc] at h ⊢
      cases hres : (logLoop sends st.maxRetries st.retryDelay 1 st.maxRetries).result with
      | succeeded j => simp [hres]
      | skipped => exact absurd h (by simp [hres])
      | failed e a => exact absurd h (by simp [hres])
    set ST := (logOrder st orderId sends).2.1 with hST
    have hcontains : ST.loggedOrders.contains orderId = true := by
      rw [hst]
      simp
    rw [logOrder, if_pos hcontains]

theorem deliver_skip_after_success_witness :
    logOrder ((logOrder initLogger "CA8" (fun _ => .response 201 "ok")).2.1) "CA8"
        (fun _ => .response 200 "ok")
      = (.skipped, (logOrder initLogger "CA8" (fun _ => .response 201 "ok")).2.1, 0, []) :=
  deliver_skip_after_success initLogger "CA8" (fun _ => .response 201 "ok")
    (fun _ => .response 200 "ok") 1 (by decide)

/-- C6: confirm fails with EmptyOrder when there are no items, with
MissingCustomerName when items are present but the customer name is falsy, and
otherwise succeeds setting exactly the `confirmed` flag; a failed confirm
leaves the manager unchanged. -/
theorem confirm_validation (m : Mgr) :
    (m.order.items = [] → confirm m = .error .emptyOrder) ∧
    (m.order.items ≠ [] → strTruthy m.order.customerName = false →
      confirm m = .error .missingCustomerName) ∧
    (m.order.items ≠ [] → strTruthy m.order.customerName = true →
      confirm m = .ok { m with order := { m.order with confirmed := true } }) ∧
    (∀ e, confirm m = .error e → applyAgg AggOp.confirmOp m = m) := by
  refine ⟨?_, ?_, ?_, ?_⟩
  · intro h
    rw [confirm, if_pos (by simp [h])]
  · intro h1 h2
    rw [confirm, if_neg (by simp [h1]), if_pos (by simp [h2])]
  · intro h1 h2
    rw [confirm, if_neg (by simp [h1]), if_neg (by simp [h2])]
  · intro e he
    simp [applyAgg, he, Except.toOption]

theorem confirm_validation_witness :
    confirm (applyAll
        [AggOp.addItemOp "coffee" (some "medium") 2 none,
         AggOp.setCustomerNameOp (some "Sam Lee")] (initMgr none (some "CA9") none))
      = .ok { applyAll
          [AggOp.addItemOp "coffee" (some "medium") 2 none,
           AggOp.setCustomerNameOp (some "Sam Lee")] (initMgr none (some "CA9") none) with
          order := { (applyAll
            [AggOp.addItemOp "coffee" (some "medium") 2 none,
             AggOp.setCustomerNameOp (some "Sam Lee")]
            (initMgr none (some "CA9") none)).order with confirmed := true } } :=
  (confirm_validation _).2.2.1 (by decide) (by decide)

/-- C7: isReadyToLog is true exactly when confirmed, items non-empty, a truthy
customer name, and not yet logged; consequently it is false while unconfirmed,
true immediately after a successful confirm on a not-yet-logged order, and
false after markAsLogged. -/
theorem isReadyToLog_iff (m : Mgr) :
    (isReadyToLog m = true ↔
      m.order.confirmed = true ∧ m.order.items ≠ [] ∧
      strTruthy m.order.customerName = true ∧ m.order.logged = false) ∧
    (m.order.confirmed = false → isReadyToLog m = false) ∧
    (∀ m', confirm m = .ok m' → m.order.logged = false → isReadyToLog m' = true) ∧
    (isReadyToLog (markAsLogged m) = false) := by
  refine ⟨?_, ?_, ?_, ?_⟩
  · simp [isReadyToLog, Bool.and_eq_true, decide_eq_true_eq, List.length_pos,
      Bool.not_eq_true']
    tauto
  · intro h
    simp [isReadyToLog, h]
  · intro m' hc hl
    rw [confirm] at hc
    split at hc
    · exact Except.noConfusion hc
    · split at hc
      · exact Except.noConfusion hc
      · rename_i hlen hname
        have h2 := Except.ok.inj hc
        subst h2
        simp only [isReadyToLog]
        show (true && decide (m.order.items.length > 0) &&
          strTruthy m.order.customerName && !m.order.logged) = true
        have hname' : strTruthy m.order.customerName = true := by
          simpa using hname
        simp [hl, hname', Nat.pos_of_ne_zero hlen]
  · simp [isReadyToLog, markAsLogged]

theorem isReadyToLog_iff_witness :
    isReadyToLog ((applyAll
      [AggOp.addItemOp "latte" (some "large") 1 none,
       AggOp.setCustomerNameOp (some "Ada"), AggOp.confirmOp]
      (initMgr none (some "CA10") none))) = true := by
  have h := ((isReadyToLog_iff (applyAll
      [AggOp.addItemOp "latte" (some "large") 1 none,
       AggOp.setCustomerNameOp (some "Ada")]
      (initMgr none (some "CA10") none))).2.2.1)
  exact h _ (by decide) (by decide)

/-- C9: setPaymentMethod succeeds exactly when the lowercased method contains
one of cash/card/credit/debit; on success it stores exactly "cash" when the
string contains "cash" and "card" otherwise, touching no other field; any
other string fails with InvalidPaymentMethod leaving the manager unchanged. -/
theorem setPaymentMethod_policy (m : Mgr) (method : String) :
    ((∃ m', setPaymentMethod m method = .ok m') ↔
      (strIncludes (jsLower method) "cash" || strIncludes (jsLower method) "card" ||
       strIncludes (jsLower method) "credit" || strIncludes (jsLower method) "debit") = true) ∧
    (∀ m', setPaymentMethod m method = .ok m' →
      m' = { m with
              order := { m.order with
                          paymentMethod := some (if strIncludes (jsLower method) "cash"
                            then "cash" else "card") } }) ∧
    ((strIncludes (jsLower method) "cash" || strIncludes (jsLower method) "card" ||
      strIncludes (jsLower method) "credit" || strIncludes (jsLower method) "debit") = false →
      setPaymentMethod m method = .error (.invalidPaymentMethod method) ∧
      applyAgg (AggOp.setPaymentMethodOp method) m = m) := by
  by_cases hc : (strIncludes (jsLower method) "cash" || strIncludes (jsLower method) "card" ||
      strIncludes (jsLower method) "credit" || strIncludes (jsLower method) "debit") = true
  · have hok : setPaymentMethod m method = .ok { m with
        order := { m.order with
                    paymentMethod := some (if strIncludes (jsLower method) "cash"
                      then "cash" else "card") } } := by
      rw [setPaymentMethod, if_neg (by simp [hc])]
    refine ⟨⟨fun _ => hc, fun _ => ⟨_, hok⟩⟩, ?_, ?_⟩
    · intro m' hm'
      rw [hok] at hm'
      exact (Except.ok.inj hm').symm
    · intro hfalse
      rw [hfalse] at hc
      exact Bool.noConfusion hc
  · have herr : setPaymentMethod m method = .error (.invalidPaymentMethod method) := by
      rw [setPaymentMethod, if_pos (by simpa using hc)]
    refine ⟨⟨?_, fun h => absurd h hc⟩, ?_, ?_⟩
    · intro ⟨m', hm'⟩
      rw [herr] at hm'
      exact Except.noConfusion hm'
    · intro m' hm'
      rw [herr] at hm'
      exact Except.noConfusion hm'
    · intro h
      exact ⟨herr, by simp [applyAgg, herr, Except.toOption]⟩

theorem setPaymentMethod_policy_witness :
    setPaymentMethod (initMgr none (some "CA11") none) "Credit Card"
      = .ok { initMgr none (some "CA11") none with
              order := { (initMgr none (some "CA11") none).order with
                          paymentMethod := some (if strIncludes (jsLower "Credit Card") "cash"
                            then "cash" else "card") } } := by
  rcases (setPaymentMethod_policy (initMgr none (some "CA11") none) "Credit Card").1.mpr
      (by decide) with ⟨m', hm'⟩
  have hrec := (setPaymentMethod_policy (initMgr none (some "CA11") none) "Credit Card").2.1 m' hm'
  rw [hm', hrec]

/-- No aggregate operation changes the constructor's `fromNumber`. -/
theorem applyAgg_fromNumber (op : AggOp) (m : Mgr) :
    (applyAgg op m).fromNumber = m.fromNumber := by
  cases op with
  | addItemOp n s q i =>
    rcases hA : addItem m n s q i with e | m'
    · simp [applyAgg, hA, Except.toOption]
    · rcases addItem_ok_shape hA with ⟨found, price, -, -, rfl⟩
      simp [applyAgg, hA, Except.toOption]
  | setDeliveryMethodOp v =>
    simp only [applyAgg, setDeliveryMethod]
    split <;> simp [Except.toOption]
  | setAddressOp v =>
    rcases v with - | a
    · simp [applyAgg, setAddress, Except.toOption]
    · simp only [applyAgg, setAddress]
      split <;> simp [Except.toOption]
  | setCustomerNameOp v =>
    rcases v with - | a
    · simp [applyAgg, setCustomerName, Except.toOption]
    · simp only [applyAgg, setCustomerName]
      split <;> simp [Except.toOption]
  | setCustomerPhoneOp v =>
    simp [applyAgg, setCustomerPhone]
  | setPaymentMethodOp v =>
    simp only [applyAgg, setPaymentMethod]
    split <;> simp [Except.toOption]
  | confirmOp =>
    simp only [applyAgg, confirm]
    split
    · simp [Except.toOption]
    · split <;> simp [Except.toOption]
  | markLoggedOp =>
    simp [applyAgg, markAsLogged]

/-- C10: setCustomerPhone never fails — a truthy value is stored as
customerPhone, a falsy (empty/null/undefined) value resets it to the number
captured at order creation, and nothing else changes; `fromNumber` itself is
never mutated by any operation. -/
theorem setCustomerPhone_total :
    (∀ (m : Mgr) (phone : Option String),
      setCustomerPhone m phone
        = { m with order := { m.order with customerPhone := jsOrStr phone m.fromNumber } }) ∧
    (∀ (m : Mgr) (phone : Option String), strTruthy phone = true →
      (setCustomerPhone m phone).order.customerPhone = phone) ∧
    (∀ (m : Mgr) (phone : Option String), strTruthy phone = false →
      (setCustomerPhone m phone).order.customerPhone = m.fromNumber) ∧
    (∀ (sid csid fnum : Option String) (ops : List AggOp),
      (applyAll ops (initMgr sid csid fnum)).fromNumber = fnum) := by
  refine ⟨fun m phone => rfl, ?_, ?_, ?_⟩
  · intro m phone h
    simp [setCustomerPhone, jsOrStr, h]
  · intro m phone h
    simp [setCustomerPhone, jsOrStr, h]
  · intro sid csid fnum ops
    have hgen : ∀ (ops : List AggOp) (m : Mgr),
        (applyAll ops m).fromNumber = m.fromNumber := by
      intro ops
      induction ops with
      | nil => intro m; rfl
      | cons op rest ih =>
        intro m
        have hsplit : applyAll (op :: rest) m = applyAll rest (applyAgg op m) := rfl
        rw [hsplit, ih, applyAgg_fromNumber]
    rw [hgen]
    rfl

theorem setCustomerPhone_total_witness :
    (setCustomerPhone (initMgr none (some "CA12") (some "+15551234567"))
        none).order.customerPhone = some "+15551234567" :=
  setCustomerPhone_total.2.2.1 (initMgr none (some "CA12") (some "+15551234567")) none rfl

/-- C8: when a query resolves, getPrice returns `priceMap[size]` whenever the
size is present (all catalog prices are nonzero, so the JS truthiness test is
a presence test), and otherwise the price of the first size in the declared
size order (the priceMap keys are exactly the sizes, in order); NotFound
arises only for unresolved queries — every catalog price table is non-empty. -/
theorem getPrice_policy (q s : String) :
    (∀ nm e, findMenuItem q = some (nm, e) →
      (∀ p, lookupStr e.priceMap s = some p → getPrice q s = some p) ∧
      (lookupStr e.priceMap s = none →
        getPrice q s = (e.priceMap.head?).map (fun sp => sp.2)) ∧
      e.priceMap.map Prod.fst = e.sizes ∧ e.priceMap ≠ []) ∧
    (findMenuItem q = none → getPrice q s = none) ∧
    (getPrice q s = none → findMenuItem q = none) := by
  refine ⟨?_, ?_, ?_⟩
  · intro nm e hf
    have hmem : ∃ k, (k, e) ∈ fallbackMenu := by
      simpa using findMenuItem_mem hf
    rcases hmem with ⟨k, hk⟩
    rcases menu_entries_good _ hk with ⟨hne, hsizes, hall⟩
    refine ⟨?_, ?_, hsizes, hne⟩
    · intro p hp
      simp only [getPrice, hf, hp]
      rcases lookupStr_mem hp with ⟨sp, hmemp, hv⟩
      rw [if_pos (hv ▸ (hall sp hmemp).1)]
    · intro hp
      simp only [getPrice, hf, hp]
  · intro hf
    simp only [getPrice, hf]
  · intro hnone
    by_contra hsome
    rcases Option.ne_none_iff_exists'.mp hsome with ⟨r, hr⟩
    rcases findMenuItem_mem hr with ⟨k, hk⟩
    rcases menu_entries_good _ hk with ⟨hne, -, hall⟩
    simp only [getPrice, hr] at hnone
    cases hl : lookupStr r.2.priceMap s with
    | some p =>
      simp only [hl] at hnone
      rcases lookupStr_mem hl with ⟨sp, hmemp, hv⟩
      rw [if_pos (hv ▸ (hall sp hmemp).1)] at hnone
      exact Option.noConfusion hnone
    | none =>
      simp only [hl] at hnone
      rcases Option.map_eq_none'.mp hnone with hhead
      exact hne (List.head?_eq_none_iff.mp hhead)

theorem getPrice_policy_witness :
    getPrice "glazed donut" "dozen" = some (cents 2299) :=
  (((getPrice_policy "glazed donut" "dozen").1 "glazed donut" glazedEntry (by decide)).1
    (cents 2299)) (by decide)
